import Mathlib

/-!
Verification development for the AutoAiTag metadata pipeline
(`AutoAiTag.py`).  The Python source is shallowly embedded below:
pure functions become Lean functions, Python values appearing in YAML
headers and model output are modelled by the `YVal` type, the external
YAML/JSON libraries are modelled as oracle function parameters, and
fallible operations return `Except`/`Option`.
-/

set_option maxRecDepth 10000

/-- Does `pat` occur at the head of `l`? (model of Python `str.startswith`). -/
def listStartsWith : List Char → List Char → Bool
| [], _ => true
| _ :: _, [] => false
| a :: as, b :: bs => a == b && listStartsWith as bs

/-- Does `pat` occur anywhere inside `l`? (model of Python `in` on strings). -/
def listHasSub (pat : List Char) : List Char → Bool
| [] => listStartsWith pat []
| c :: t => listStartsWith pat (c :: t) || listHasSub pat t

/-- Values that can appear in a parsed YAML/JSON document or a frontmatter
mapping: the model of the Python objects this program manipulates.
`dict` keys are modelled as strings (the program only ever uses string keys). -/
inductive YVal where
| null
| bool (b : Bool)
| int (n : Int)
| float (q : Rat)
| str (s : String)
| list (l : List YVal)
| dict (d : List (String × YVal))

mutual

/-- Structural equality on `YVal`, the model of Python `==` as used by this
program (the program only ever compares a string against header tag values;
on those comparisons Python `==` agrees with structural equality). -/
def YVal.beq : YVal → YVal → Bool
| .null, .null => true
| .bool a, .bool b => a == b
| .int a, .int b => a == b
| .float a, .float b => a == b
| .str a, .str b => a == b
| .list a, .list b => YVal.beqList a b
| .dict a, .dict b => YVal.beqDict a b
| _, _ => false

def YVal.beqList : List YVal → List YVal → Bool
| [], [] => true
| a :: as, b :: bs => YVal.beq a b && YVal.beqList as bs
| _, _ => false

def YVal.beqDict : List (String × YVal) → List (String × YVal) → Bool
| [], [] => true
| (k1, v1) :: as, (k2, v2) :: bs => k1 == k2 && YVal.beq v1 v2 && YVal.beqDict as bs
| _, _ => false

end

instance : BEq YVal := ⟨YVal.beq⟩

mutual

/-- Model of Python `repr` restricted to the value shapes this program can
see; strings are rendered with single quotes (the common CPython case). -/
def pyRepr : YVal → String
| .null => "None"
| .bool true => "True"
| .bool false => "False"
| .int n => toString n
| .float q => toString q
| .str s => "'" ++ s ++ "'"
| .list l => "[" ++ pyReprList l ++ "]"
| .dict d => "\x7b" ++ pyReprDict d ++ "\x7d"

def pyReprList : List YVal → String
| [] => ""
| [x] => pyRepr x
| x :: xs => pyRepr x ++ ", " ++ pyReprList xs

def pyReprDict : List (String × YVal) → String
| [] => ""
| [(k, v)] => "'" ++ k ++ "': " ++ pyRepr v
| (k, v) :: xs => "'" ++ k ++ "': " ++ pyRepr v ++ ", " ++ pyReprDict xs

end

/-- Model of Python `str()`: identity on strings, `repr` on everything else
(faithful for the scalar values the program actually stringifies). -/
def pyStr : YVal → String
| .str s => s
| v => pyRepr v

/-- Python truthiness of a value (`bool(v)`). -/
def pyTruthy : YVal → Bool
| .null => false
| .bool b => b
| .int n => n != 0
| .float q => q != 0
| .str s => s != ""
| .list l => !l.isEmpty
| .dict d => !d.isEmpty

/-- Python `a or b` on values: `a` if truthy, else `b`. -/
def pyOr (a b : YVal) : YVal := if pyTruthy a then a else b

/-- Model of `d.get(k)` on an insertion-ordered Python dict (`None` when absent is
represented by `Option`). -/
def dictGet (d : List (String × YVal)) (k : String) : Option YVal :=
  (d.find? (fun kv => kv.1 == k)).map (fun kv => kv.2)

/-- Model of `d.get(k, default)`. -/
def pyGetD (d : List (String × YVal)) (k : String) (dflt : YVal) : YVal :=
  (dictGet d k).getD dflt

/-- Model of `d[k] = v` on an insertion-ordered dict: overwrite in place if the key
exists, else append at the end. -/
def dictSet (d : List (String × YVal)) (k : String) (v : YVal) :
    List (String × YVal) :=
  if (dictGet d k).isSome then
    d.map (fun kv => if kv.1 == k then (k, v) else kv)
  else d ++ [(k, v)]

/-- Model of `d.setdefault(k, v)`: insert only when the key is absent. -/
def dictSetDefault (d : List (String × YVal)) (k : String) (v : YVal) :
    List (String × YVal) :=
  if (dictGet d k).isSome then d else d ++ [(k, v)]

/-- Whitespace splitter core: Python `str.split()` with no arguments
(runs of whitespace separate tokens, no empty tokens).  `acc` is the
current token being built, reversed. -/
def splitWsGo : List Char → List Char → List (List Char)
| [], acc => if acc.isEmpty then [] else [acc.reverse]
| c :: rest, acc =>
  if c.isWhitespace then
    if acc.isEmpty then splitWsGo rest [] else acc.reverse :: splitWsGo rest []
  else splitWsGo rest (c :: acc)

/-- Python `str.split()` on the character list of a string. -/
def pySplitChars (l : List Char) : List (List Char) := splitWsGo l []

/-- Python `str.split()` returning strings. -/
def pySplitWs (s : String) : List String := (pySplitChars s.data).map String.mk

/-! ## Response Extractor: `extract_json_object` (AutoAiTag.py lines 89-121) -/

/-- Model of `s.find('{')` followed by slicing: returns the suffix of `l` starting at
the first opening brace, `none` when there is no brace (or `l` is empty). -/
def findOpen : List Char → Option (List Char)
| [] => none
| c :: t => if c = '{' then some (c :: t) else findOpen t

/-- The depth-counting loop of `extract_json_object`: walk the characters,
`+1` at each opening brace and `-1` at each closing brace, returning the
characters seen so far (in `acc`) as soon as the depth reaches zero at a
closing brace. -/
def braceScan : List Char → Int → List Char → Option (List Char)
| [], _, _ => none
| c :: rest, depth, acc =>
  if c = '{' then braceScan rest (depth + 1) (acc ++ [c])
  else if c = '}' then
    if depth - 1 = 0 then some (acc ++ [c])
    else braceScan rest (depth - 1) (acc ++ [c])
  else braceScan rest depth (acc ++ [c])

/-- Embedding of `extract_json_object(s)`: extract the first balanced `{...}` region. -/
def extract_json_object (s : String) : Option String :=
  match findOpen s.data with
  | none => none
  | some l => (braceScan l 0 []).map String.mk

/-- A character sequence whose braces nest properly and close completely:
the brace-content of a well-formed region.  (Specification-side notion.) -/
inductive BraceBalanced : List Char → Prop
| empty : BraceBalanced []
| other (c : Char) (l : List Char) : c ≠ '{' → c ≠ '}' → BraceBalanced l →
    BraceBalanced (c :: l)
| wrap (inner l : List Char) : BraceBalanced inner → BraceBalanced l →
    BraceBalanced ('{' :: (inner ++ '}' :: l))

/-- Predicate `BraceCloses d u`: reading `u` at nesting depth `d ≥ 1` reaches depth `0`
exactly at the last character of `u` (which is a closing brace).
Characterizes the regions `braceScan` consumes. -/
inductive BraceCloses : Int → List Char → Prop
| base (b : List Char) : BraceBalanced b → BraceCloses 1 (b ++ ['}'])
| step (b : List Char) (d : Int) (u : List Char) : 1 ≤ d → BraceBalanced b →
    BraceCloses d u → BraceCloses (d + 1) (b ++ '}' :: u)

/-! ## Date resolution (AutoAiTag.py lines 284-341) -/

/-- One or two digits followed by the literal separator `sep`; returns the
digit characters and the remainder after the separator.  Models the
`\d{1,2}` parts of the regex `\((\d{4})-(\d{1,2})-(\d{1,2})\)` (each is
followed in the pattern by a literal, so greedy matching with backtracking
reduces to this case analysis). -/
def matchNum12 (sep : Char) : List Char → Option (List Char × List Char)
| a :: b :: rest =>
  if a.isDigit then
    if b.isDigit then
      match rest with
      | c :: rest2 => if c = sep then some ([a, b], rest2) else none
      | [] => none
    else if b = sep then some ([a], rest)
    else none
  else none
| _ => none

/-- Python `str.zfill(2)` on a digit group of length one or two. -/
def zfill2 (l : List Char) : List Char := if l.length = 1 then '0' :: l else l

/-- Match the regex `\((\d{4})-(\d{1,2})-(\d{1,2})\)` anchored at the head of
`l`; on success build `f"{year}-{month}-{day}"` with month and day
zero-filled to two digits, as `extract_date_from_filename` does. -/
def matchParenDate (l : List Char) : Option String :=
  match l with
  | '(' :: a :: b :: c :: d :: s1 :: rest =>
    if a.isDigit && b.isDigit && c.isDigit && d.isDigit && s1 = '-' then
      match matchNum12 '-' rest with
      | some (m, rest2) =>
        match matchNum12 ')' rest2 with
        | some (dd, _) =>
          some (String.mk ([a, b, c, d] ++ '-' :: (zfill2 m ++ '-' :: zfill2 dd)))
        | none => none
      | none => none
    else none
  | _ => none

/-- Model of `re.search`: try the pattern at each start position, leftmost first. -/
def parenDateSearch : List Char → Option String
| [] => none
| c :: t =>
  match matchParenDate (c :: t) with
  | some r => some r
  | none => parenDateSearch t

/-- Embedding of `extract_date_from_filename(filename)`. -/
def extract_date_from_filename (filename : String) : Option String :=
  parenDateSearch filename.data

/-- The float literal `0.9` from `ai_confidence > 0.9`, written as a rational
in lowest terms so that concrete comparisons compute by `decide`. -/
def pointNine : Rat := ⟨9, 10, by decide, by decide⟩

/-- The three date-resolution tiers. -/
inductive DateSource where
| AI
| Filename
| FileSystem
deriving DecidableEq

/-- Tiers 2 and 3 of `determine_file_date`. -/
def date_fallback (filename file_creation_date : String) : String × DateSource :=
  match extract_date_from_filename filename with
  | some d => (d, .Filename)
  | none => (file_creation_date, .FileSystem)

/-- Embedding of `determine_file_date(ai_date, ai_confidence, filename, file_creation_date)`.
Inputs are typed per the source's annotations (`ai_date: str` or `None`,
`ai_confidence: float`, modelled as a rational).  The condition mirrors
`if ai_date and ai_confidence and ai_confidence > 0.9` — Python truthiness
of a string is non-emptiness and of a float is non-zeroness. -/
def determine_file_date (ai_date : Option String) (ai_confidence : Rat)
    (filename file_creation_date : String) : String × DateSource :=
  match ai_date with
  | some d =>
    if d ≠ "" ∧ ai_confidence ≠ 0 ∧ ai_confidence > pointNine then (d, .AI)
    else date_fallback filename file_creation_date
  | none => date_fallback filename file_creation_date

/-! ## Unicode-escape repair: `clean_text_unicode_escapes` (lines 124-135)

`s.encode('utf-8').decode('unicode_escape')` is modelled byte-exactly:
the string is encoded to UTF-8 bytes, then decoded with CPython's
`unicode_escape` codec, which interprets every Python escape sequence and
reads every other byte as Latin-1.  The `\N\x7bname\x7d` escape needs the
Unicode name database, which is modelled as the oracle `nameLk`. -/

/-- UTF-8 encoding of one character, as byte values. -/
def utf8Bytes (c : Char) : List Nat :=
  let n := c.toNat
  if n < 128 then [n]
  else if n < 2048 then [192 + n / 64, 128 + n % 64]
  else if n < 65536 then [224 + n / 4096, 128 + (n / 64) % 64, 128 + n % 64]
  else [240 + n / 262144, 128 + (n / 4096) % 64, 128 + (n / 64) % 64, 128 + n % 64]

/-- Model of `s.encode('utf-8')` as a byte list. -/
def strUtf8 (s : String) : List Nat := (s.data.map utf8Bytes).flatten

/-- Hex digit value of a byte, if it is one. -/
def hexVal (b : Nat) : Option Nat :=
  if 48 ≤ b ∧ b ≤ 57 then some (b - 48)
  else if 97 ≤ b ∧ b ≤ 102 then some (b - 87)
  else if 65 ≤ b ∧ b ≤ 70 then some (b - 55)
  else none

/-- Read exactly `n` hex digits (most significant first) into `acc`. -/
def readHexAcc : Nat → Nat → List Nat → Option (Nat × List Nat)
| 0, acc, l => some (acc, l)
| _ + 1, _, [] => none
| n + 1, acc, b :: t =>
  match hexVal b with
  | some v => readHexAcc n (acc * 16 + v) t
  | none => none

/-- Is the byte an octal digit `0`-`7`? -/
def isOctal (b : Nat) : Bool := 48 ≤ b && b ≤ 55

/-- Split a byte list at the first `}` byte (for `\N\x7bname\x7d`). -/
def breakAtCloseBrace : List Nat → Option (List Nat × List Nat)
| [] => none
| b :: t =>
  if b = 125 then some ([], t)
  else (breakAtCloseBrace t).map (fun pr => (b :: pr.1, pr.2))

/-- The `unicode_escape` codec decoder over bytes.  Recognized escapes after
a backslash (byte 92): `\n \t \r \\ \' \" \a \b \f \v`, backslash-newline
(line continuation), one-to-three octal digits, `\xhh`, `\uhhhh`,
`\Uhhhhhhhh` (rejecting values beyond U+10FFFF) and `\N\x7bname\x7d` via the
name oracle; an unrecognized escape keeps the backslash and the following
byte; every byte outside an escape is read as its Latin-1 character.
Malformed escapes (including a trailing backslash) raise, modelled as
`.error`.  `fuel` only bounds recursion; each step consumes at least one
byte so `length + 1` fuel never runs out. -/
def decodeUE (nameLk : String → Option Nat) : Nat → List Nat → Except Unit (List Char)
| 0, _ => .error ()
| _ + 1, [] => .ok []
| fuel + 1, b :: rest =>
  if b ≠ 92 then (decodeUE nameLk fuel rest).map (fun cs => Char.ofNat b :: cs)
  else
    match rest with
    | [] => .error ()
    | e :: r2 =>
      if e = 110 then (decodeUE nameLk fuel r2).map (fun cs => '\n' :: cs)
      else if e = 116 then (decodeUE nameLk fuel r2).map (fun cs => '\t' :: cs)
      else if e = 114 then (decodeUE nameLk fuel r2).map (fun cs => '\r' :: cs)
      else if e = 92 then (decodeUE nameLk fuel r2).map (fun cs => '\\' :: cs)
      else if e = 39 then (decodeUE nameLk fuel r2).map (fun cs => '\'' :: cs)
      else if e = 34 then (decodeUE nameLk fuel r2).map (fun cs => '"' :: cs)
      else if e = 97 then (decodeUE nameLk fuel r2).map (fun cs => Char.ofNat 7 :: cs)
      else if e = 98 then (decodeUE nameLk fuel r2).map (fun cs => Char.ofNat 8 :: cs)
      else if e = 102 then (decodeUE nameLk fuel r2).map (fun cs => Char.ofNat 12 :: cs)
      else if e = 118 then (decodeUE nameLk fuel r2).map (fun cs => Char.ofNat 11 :: cs)
      else if e = 10 then decodeUE nameLk fuel r2
      else if isOctal e then
        match r2 with
        | b2 :: b3 :: r3 =>
          if isOctal b2 then
            if isOctal b3 then
              (decodeUE nameLk fuel r3).map
                (fun cs => Char.ofNat ((e - 48) * 64 + (b2 - 48) * 8 + (b3 - 48)) :: cs)
            else
              (decodeUE nameLk fuel (b3 :: r3)).map
                (fun cs => Char.ofNat ((e - 48) * 8 + (b2 - 48)) :: cs)
          else
            (decodeUE nameLk fuel (b2 :: b3 :: r3)).map
              (fun cs => Char.ofNat (e - 48) :: cs)
        | [b2] =>
          if isOctal b2 then
            (decodeUE nameLk fuel []).map
              (fun cs => Char.ofNat ((e - 48) * 8 + (b2 - 48)) :: cs)
          else (decodeUE nameLk fuel [b2]).map (fun cs => Char.ofNat (e - 48) :: cs)
        | [] => (decodeUE nameLk fuel []).map (fun cs => Char.ofNat (e - 48) :: cs)
      else if e = 120 then
        match readHexAcc 2 0 r2 with
        | some (v, r3) => (decodeUE nameLk fuel r3).map (fun cs => Char.ofNat v :: cs)
        | none => .error ()
      else if e = 117 then
        match readHexAcc 4 0 r2 with
        | some (v, r3) => (decodeUE nameLk fuel r3).map (fun cs => Char.ofNat v :: cs)
        | none => .error ()
      else if e = 85 then
        match readHexAcc 8 0 r2 with
        | some (v, r3) =>
          if v ≤ 1114111 then (decodeUE nameLk fuel r3).map (fun cs => Char.ofNat v :: cs)
          else .error ()
        | none => .error ()
      else if e = 78 then
        match r2 with
        | 123 :: r3 =>
          match breakAtCloseBrace r3 with
          | some (nm, r4) =>
            match nameLk (String.mk (nm.map Char.ofNat)) with
            | some v => (decodeUE nameLk fuel r4).map (fun cs => Char.ofNat v :: cs)
            | none => .error ()
          | none => .error ()
        | _ => .error ()
      else (decodeUE nameLk fuel r2).map (fun cs => '\\' :: Char.ofNat e :: cs)

/-- Model of `bytes.decode('unicode_escape')`. -/
def pyUnicodeEscape (nameLk : String → Option Nat) (bs : List Nat) :
    Except Unit (List Char) :=
  decodeUE nameLk (bs.length + 1) bs

/-- Embedding of `clean_text_unicode_escapes(s)` (the function is only ever called on
strings, so the `isinstance` guard is vacuous in the model): if the text
contains a literal backslash-u or backslash-U, re-decode it through
`encode('utf-8').decode('unicode_escape')`, returning the original string
when that raises. -/
def clean_text_unicode_escapes (nameLk : String → Option Nat) (s : String) : String :=
  if listHasSub ['\\', 'u'] s.data || listHasSub ['\\', 'U'] s.data then
    match pyUnicodeEscape nameLk (strUtf8 s) with
    | .ok cs => String.mk cs
    | .error _ => s
  else s

/-! ## Tag normalization: `parse_tags_field` (lines 138-155) -/

/-- Python `str.strip()`: drop whitespace from both ends.  (Implemented on
character lists so that concrete instances compute.) -/
def pyStrip (s : String) : String :=
  String.mk (((s.data.dropWhile Char.isWhitespace).reverse.dropWhile
    Char.isWhitespace).reverse)

/-- Core of Python `str.split(",")`: split at every comma, keeping empties. -/
def splitCommaGo : List Char → List Char → List (List Char)
| [], acc => [acc.reverse]
| c :: t, acc =>
  if c = ',' then acc.reverse :: splitCommaGo t [] else splitCommaGo t (c :: acc)

/-- Python `s.split(",")`. -/
def pySplitComma (s : String) : List String := (splitCommaGo s.data []).map String.mk

/-- Embedding of `parse_tags_field(raw)`, with `yaml.safe_load` modelled by the oracle
`yload` (`.error` models the parser raising). -/
def parse_tags_field (yload : String → Except Unit YVal) : YVal → List String
| .null => []
| .list l => (l.map (fun t => pyStrip (pyStr t))).filter (fun t => t ≠ "")
| .str s =>
  match yload s with
  | .ok (.list l) => (l.map (fun t => pyStrip (pyStr t))).filter (fun t => t ≠ "")
  | _ => ((pySplitComma s).map pyStrip).filter (fun t => t ≠ "")
| v => [pyStrip (pyStr v)]

/-! ## Model Client: `query_llm_for_summary_and_tags` (lines 158-281)

The HTTP call is modelled by an `HttpOutcome` input; the YAML and JSON
libraries (`yaml.safe_load`, `json.loads`) are oracle parameters `yload`
and `jload` returning `.error` when the library call raises.  The semaphore
interaction and debug printing do not affect the returned value and are not
part of this value-level model. -/

/-- The typed result dictionary `{summary, tags, date, date_confidence}`.
`date` and `date_confidence` are typed per the documented response schema
(`YYYY-MM-DD` string or null; confidence 0.0-1.0 as a rational). -/
structure ModelResult where
  summary : String
  tags : List String
  date : Option String
  date_confidence : Rat
deriving DecidableEq

/-- The all-empty/zero result returned on every error path. -/
def emptyModelResult : ModelResult :=
  { summary := "", tags := [], date := none, date_confidence := 0 }

/-- Outcome of `requests.post(...)`: a raised transport error, a raised
timeout, or a response carrying an HTTP status and the result of `r.json()`
(`.error` when the body is not JSON and `r.json()` raises). -/
inductive HttpOutcome where
| transportError
| timeoutError
| response (status : Nat) (body : Except Unit YVal)

/-- Model of `resp["choices"][0]["message"]["content"]` when it selects a string;
any shape mismatch raises (`KeyError`/`IndexError`/`TypeError`) inside the
`try` block — or makes the subsequent string operations raise — which the
handler turns into the empty result, so the model collapses those shapes
to `none`. -/
def getContent (resp : YVal) : Option String :=
  match resp with
  | .dict d =>
    match dictGet d "choices" with
    | some (.list (c :: _)) =>
      match c with
      | .dict cd =>
        match dictGet cd "message" with
        | some (.dict md) =>
          match dictGet md "content" with
          | some (.str s) => some s
          | _ => none
        | _ => none
      | _ => none
    | _ => none
  | _ => none

/-- The three-stage parse of the raw model output (lines 224-244):
(a) `yaml.safe_load` on the extracted `{...}` region, (b) `json.loads` on
that region when (a) raised, (c) `yaml.safe_load` on the whole output when
`parsed` is still `None`.  `YVal.null` plays Python's `None`, so a stage
returning YAML `null` also falls through to (c), exactly as in the source. -/
def parse_llm_output (yload jload : String → Except Unit YVal) (raw : String) : YVal :=
  let attempt12 : YVal :=
    match extract_json_object raw with
    | some sub =>
      match yload sub with
      | .ok v => v
      | .error _ =>
        match jload sub with
        | .ok v => v
        | .error _ => .null
    | none => .null
  match attempt12 with
  | .null =>
    match yload raw with
    | .ok v => v
    | .error _ => .null
  | v => v

/-- Line 261: `parsed.get("tags", parsed.get("tag", []))`. -/
def select_raw_tags (p : List (String × YVal)) : YVal :=
  pyGetD p "tags" (pyGetD p "tag" (.list []))

/-- Lines 255-258: truncate to the first 50 whitespace-delimited words,
joined by single spaces, with an ellipsis appended when truncation
happened. -/
def truncate_summary (s : String) : String :=
  let words := pySplitWs s
  if words.length > 50 then String.intercalate " " (words.take 50) ++ "..." else s

/-- Embedding of `query_llm_for_summary_and_tags(note_text, debug)`.  The note text and
debug flag do not influence the value beyond the HTTP outcome, so the
model takes the outcome directly. -/
def query_llm_for_summary_and_tags (yload jload : String → Except Unit YVal)
    (nameLk : String → Option Nat) (http : HttpOutcome) : ModelResult :=
  match http with
  | .transportError => emptyModelResult
  | .timeoutError => emptyModelResult
  | .response status body =>
    -- `r.raise_for_status()` raises exactly for 4xx and 5xx statuses
    if 400 ≤ status ∧ status < 600 then emptyModelResult
    else
      match body with
      | .error _ => emptyModelResult
      | .ok resp =>
        match getContent resp with
        | none => emptyModelResult
        | some raw_output =>
          match parse_llm_output yload jload raw_output with
          | .dict parsed =>
            let raw_summary := clean_text_unicode_escapes nameLk
              (pyStrip (pyStr (pyOr (pyGetD parsed "summary" (.str "")) (.str ""))))
            let summary := truncate_summary raw_summary
            let tags := ((parse_tags_field yload (select_raw_tags parsed)).map
              (clean_text_unicode_escapes nameLk)).take 3
            let date : Option String :=
              match dictGet parsed "date" with
              | some (.str s) => some s
              | _ => none
            let conf : Rat :=
              match dictGet parsed "date_confidence" with
              | some (.float q) => q
              | some (.int n) => (n : Rat)
              | _ => 0
            { summary := summary, tags := tags, date := date, date_confidence := conf }
          | _ => emptyModelResult

/-! ## Document model and per-file job (lines 344-462, 571-600) -/

/-- First occurrence split: Python `s.split(sep, 1)` when `sep` occurs,
returning the parts before and after it; `none` when `sep` does not occur. -/
def splitOnFirst (sep : List Char) : List Char → Option (List Char × List Char)
| [] => none
| c :: t =>
  if listStartsWith sep (c :: t) then some ([], (c :: t).drop sep.length)
  else (splitOnFirst sep t).map (fun pr => (c :: pr.1, pr.2))

/-- Embedding of `parse_frontmatter_and_body(content)` (lines 356-372):
`content.split("---", 2)` has three parts exactly when `---` occurs at
least twice; the segment between the first two occurrences is stripped and
YAML-parsed (any failure or non-dict result gives an empty mapping), the
remainder is the body. -/
def parse_frontmatter_and_body (yload : String → Except Unit YVal)
    (content : String) : List (String × YVal) × String × Bool :=
  if listStartsWith ['-', '-', '-'] content.data then
    match splitOnFirst ['-', '-', '-'] content.data with
    | some (_, rest1) =>
      match splitOnFirst ['-', '-', '-'] rest1 with
      | some (fmChars, bodyChars) =>
        let fm :=
          match yload (pyStrip (String.mk fmChars)) with
          | .ok (.dict d) => d
          | _ => []
        (fm, String.mk bodyChars, true)
      | none => ([], content, false)
    | none => ([], content, false)
  else ([], content, false)

/-- Python `body.lstrip(chr(10))`: drop leading newline characters only. -/
def pyLstripNewlines (s : String) : String :=
  String.mk (s.data.dropWhile (fun c => c = '\n'))

/-- Line 447: `f"---\n{yaml_text}---\n\n{body.lstrip(chr(10))}"` — the
rewritten document content. -/
def render_content (yaml_text body : String) : String :=
  "---\n" ++ yaml_text ++ "---\n\n" ++ pyLstripNewlines body

/-- Lines 420-425: coerce the existing `tags` header value to a Python list:
a list stays itself, a string is parsed by `parse_tags_field`, any other
iterable is listed (for a dict, `list(d)` is its keys); `list()` of a
scalar (`None`, bool, int, float) raises `TypeError`, modelled as `.error`. -/
def existing_tags_list (yload : String → Except Unit YVal) :
    YVal → Except Unit (List YVal)
| .list l => .ok l
| .str s => .ok ((parse_tags_field yload (.str s)).map YVal.str)
| .dict d => .ok (d.map (fun kv => YVal.str kv.1))
| _ => .error ()

/-- Line 426: the converted existing list together with
`[t for t in ai_tags if t not in existing_tags]`. -/
def merge_new_tags (yload : String → Except Unit YVal) (existingVal : YVal)
    (aiTags : List String) : Except Unit (List YVal × List String) := do
  let ex ← existing_tags_list yload existingVal
  pure (ex, aiTags.filter (fun t => !(ex.contains (YVal.str t))))

/-- The value of the `tags` header field after the merge step (lines
420-429), given its value before the step (`.list []` plays the
`fm.get("tags", [])` default): unchanged when no new tags survive the
filter, else the converted existing list plus at most three new tags. -/
def merge_tags_value (yload : String → Except Unit YVal) (existingVal : YVal)
    (aiTags : List String) : Except Unit YVal := do
  let pr ← merge_new_tags yload existingVal aiTags
  if pr.2.isEmpty then pure existingVal
  else pure (.list (pr.1 ++ (pr.2.take 3).map YVal.str))

/-- Per-job inputs of `process_file` that come from the outside world:
paths and their derived forms, the attempted read, the file-system creation
date (already `strftime`-formatted), the HTTP outcome of the potential LLM
call, and the outcome of the potential atomic write. -/
structure ProcJob where
  filepath : String
  relpath : String
  basename : String
  stem : String
  readResult : Except String String
  ctime : String
  http : HttpOutcome
  writeResult : Except String Unit

/-- The non-`None` values `process_file` can return: the write-mode success
and failure dicts and the dry-run record. -/
inductive RetVal where
| updatedOk (path : String)
| updatedFail (path error : String)
| dryrun (path : String) (metadata : List (String × YVal)) (date_source : DateSource)
    (ai_date : Option String) (ai_confidence : Rat)

/-- Embedding of `process_file` (lines 380-462).  The returned pair carries the printed
lines (debug-only prints are not part of the model) and either the Python
return value (`none` models returning `None`) or an uncaught exception
`(message, type-name)` propagating out of the job — in this model the only
uncaught exception source is `list()` applied to a scalar `tags` value. -/
def process_file (yload jload : String → Except Unit YVal)
    (nameLk : String → Option Nat) (ydump : List (String × YVal) → String)
    (char_limit : Nat) (force_flag write_mode : Bool) (job : ProcJob) :
    List String × Except (String × String) (Option RetVal) :=
  match job.readResult with
  | .error e => (["ERR reading " ++ job.filepath ++ ": " ++ e], .ok none)
  | .ok content =>
    let pfb := parse_frontmatter_and_body yload content
    let fm0 := pfb.1
    let body := pfb.2.1
    if pyTruthy (pyGetD fm0 "autoAiTag" .null) && !force_flag then ([], .ok none)
    else
      let title := pyOr (pyGetD fm0 "title" .null) (.str job.stem)
      let fm1 := dictSetDefault fm0 "title" title
      let fm2 := dictSet fm1 "wordCount" (.int (pySplitChars body.data).length)
      let aiStep : Except (String × String) (Option String × Rat × List (String × YVal)) :=
        if body.length ≥ char_limit then
          let ai := query_llm_for_summary_and_tags yload jload nameLk job.http
          let fm3 := if ai.summary ≠ "" then dictSet fm2 "summary" (.str ai.summary) else fm2
          match merge_new_tags yload (pyGetD fm3 "tags" (.list [])) ai.tags with
          | .error _ => .error ("object is not iterable", "TypeError")
          | .ok (ex, new_tags) =>
            let fm4 :=
              if new_tags.isEmpty then fm3
              else dictSet fm3 "tags" (.list (ex ++ (new_tags.take 3).map YVal.str))
            .ok (ai.date, ai.date_confidence, fm4)
        else .ok (none, 0, fm2)
      match aiStep with
      | .error e => ([], .error e)
      | .ok (ai_date, ai_confidence, fmA) =>
        let fd := determine_file_date ai_date ai_confidence job.basename job.ctime
        let fmB := dictSet (dictSet fmA "Date" (.str fd.1)) "autoAiTag" (.bool true)
        if write_mode then
          let yaml_text := ydump fmB
          let _new_content := render_content yaml_text body
          match job.writeResult with
          | .ok _ => ([], .ok (some (.updatedOk job.relpath)))
          | .error e =>
            (["ERR writing " ++ job.filepath ++ ": " ++ e],
              .ok (some (.updatedFail job.relpath e)))
        else ([], .ok (some (.dryrun job.relpath fmB fd.2 ai_date ai_confidence)))

/-- An entry of the run's `error_log` (lines 593-598). -/
structure ErrEntry where
  filepath : String
  error : String
  error_type : String
  timestamp : String
deriving DecidableEq

/-- What `fut.result()` delivers for one job: a normal return (with the lines
the job printed) or a raised exception. -/
inductive JobOutcome where
| ok (printed : List String) (ret : Option RetVal)
| exn (printed : List String) (msg ty : String)

/-- View a `process_file` result as a `JobOutcome`. -/
def jobOutcomeOf : List String × Except (String × String) (Option RetVal) → JobOutcome
| (pr, .ok r) => .ok pr r
| (pr, .error (m, t)) => .exn pr m t

/-- The `as_completed` collection loop of `main` (lines 585-600): truthy
results are accumulated, an exception from a job is recorded in the error
log with the relative path, message, type name and timestamp, and an
`ERR processing` line is printed.  `relp` models `os.path.relpath(·, vault)`
and `ts` the `datetime.now().isoformat()` calls.  Returns
`(results, error_log, printed lines)` in completion order. -/
def main_collect (relp : String → String) (ts : String) :
    List (String × JobOutcome) → List RetVal × List ErrEntry × List String
| [] => ([], [], [])
| (fp, oc) :: rest =>
  let r := main_collect relp ts rest
  match oc with
  | .ok pr ret =>
    ((match ret with | some v => v :: r.1 | none => r.1), r.2.1, pr ++ r.2.2)
  | .exn pr msg ty =>
    (r.1, ⟨relp fp, msg, ty, ts⟩ :: r.2.1,
      pr ++ (("ERR processing " ++ fp ++ ": " ++ msg) :: r.2.2))

/-! ## Specification-side predicates -/

/-- Predicate: `s` contains a well-formed top-level `{...}` region (specification-side
notion for the balanced-brace-extraction property). -/
def HasBraceRegion (s : String) : Prop :=
  ∃ pre inner post,
    s.data = pre ++ '{' :: (inner ++ '}' :: post) ∧ BraceBalanced inner

/-- Predicate: `fn` contains a parenthesized `YYYY-M-D` / `YYYY-MM-DD` group: `(`,
four digits, `-`, one or two digits, `-`, one or two digits, `)`. -/
def FilenameDateSpec (fn : String) : Prop :=
  ∃ pre y m d post,
    fn.data = pre ++ '(' :: (y ++ '-' :: (m ++ '-' :: (d ++ ')' :: post)))
    ∧ y.length = 4 ∧ (∀ c ∈ y, c.isDigit)
    ∧ 1 ≤ m.length ∧ m.length ≤ 2 ∧ (∀ c ∈ m, c.isDigit)
    ∧ 1 ≤ d.length ∧ d.length ≤ 2 ∧ (∀ c ∈ d, c.isDigit)

/-- Predicate: `r` is the zero-padded rendering of a parenthesized date group occurring
in `fn`. -/
def PaddedDateOf (fn r : String) : Prop :=
  ∃ pre y m d post,
    fn.data = pre ++ '(' :: (y ++ '-' :: (m ++ '-' :: (d ++ ')' :: post)))
    ∧ y.length = 4 ∧ (∀ c ∈ y, c.isDigit)
    ∧ 1 ≤ m.length ∧ m.length ≤ 2 ∧ (∀ c ∈ m, c.isDigit)
    ∧ 1 ≤ d.length ∧ d.length ≤ 2 ∧ (∀ c ∈ d, c.isDigit)
    ∧ r = String.mk (y ++ '-' :: (zfill2 m ++ '-' :: zfill2 d))

/-- Concrete YAML oracle for the C9 witness: model output carrying an
over-escaped tag. -/
def ylC9 : String → Except Unit YVal := fun s =>
  if s = "raw" then
    .ok (.dict [("summary", .str "ok"), ("tags", .list [.str "\\u0041"])])
  else .error ()

/-- Concrete HTTP response body for the C9 witness. -/
def respC9 : YVal :=
  .dict [("choices", .list [.dict [("message", .dict [("content", .str "raw")])]])]

/-- Concrete job whose read fails (for the C4 counterexample and witness). -/
def c4Job : ProcJob :=
  { filepath := "a.md", relpath := "a.md", basename := "a.md", stem := "a",
    readResult := .error "boom", ctime := "2020-01-01",
    http := .transportError, writeResult := .ok () }

/-- Concrete job that reads fine but whose atomic write fails. -/
def c4JobW : ProcJob :=
  { filepath := "w.md", relpath := "w.md", basename := "w.md", stem := "w",
    readResult := .ok "hello world", ctime := "2020-01-01",
    http := .transportError, writeResult := .error "disk full" }

/-! ## Sanity checks on concrete inputs -/

example : pySplitWs "  a bc  d " = ["a", "bc", "d"] := by decide
example : listHasSub ['b', 'c'] "abcd".data = true := by decide
example : listHasSub ['c', 'b'] "abcd".data = false := by decide
example : pyGetD [("a", .int 1)] "b" .null = .null := by rfl
example : dictSet [("a", YVal.int 1), ("b", YVal.int 2)] "a" (YVal.int 5)
    = [("a", YVal.int 5), ("b", YVal.int 2)] := by rfl
example : extract_json_object (String.mk ['p', ' ', '{', 'a', '{', 'b', '}', '}', 'q'])
    = some (String.mk ['{', 'a', '{', 'b', '}', '}']) := by rfl
example : extract_json_object "no json here" = none := by rfl
example : extract_json_object (String.mk ['o', 'p', 'e', 'n', ' ', '{']) = none := by rfl
example : extract_json_object "" = none := by rfl
example : extract_date_from_filename "Notes (2021-3-9).md" = some "2021-03-09" := by rfl
example : extract_date_from_filename "Meeting Notes (2024-01-15).md" = some "2024-01-15" := by rfl
example : extract_date_from_filename "(20245-1-1).md" = none := by rfl
example : determine_file_date (some "2023-05-01") (⟨19, 20, by decide, by decide⟩ : Rat)
    "x(2020-01-01).md" "1999-01-01" = ("2023-05-01", .AI) := by decide
example : determine_file_date (some "2023-05-01") pointNine
    "x(2020-01-01).md" "1999-01-01" = ("2020-01-01", .Filename) := by decide
example : determine_file_date none 0 "x.md" "1999-01-01" = ("1999-01-01", .FileSystem) := by decide
example : clean_text_unicode_escapes (fun _ => none) "\\u0041" = "A" := by rfl
example : clean_text_unicode_escapes (fun _ => none) "\\uZZZZ" = "\\uZZZZ" := by rfl
example : clean_text_unicode_escapes (fun _ => none) "no escapes" = "no escapes" := by rfl
example : clean_text_unicode_escapes (fun _ => none) "\\u0041 \\n"
    = String.mk ['A', ' ', '\n'] := by rfl
example : parse_tags_field (fun _ => .error ()) (.str "a, ,b ,") = ["a", "b"] := by rfl
example : parse_tags_field (fun _ => .error ()) (.list [.str " x ", .str "", .int 3])
    = ["x", "3"] := by rfl
example : parse_tags_field (fun _ => .error ()) .null = [] := by rfl
example : parse_tags_field (fun _ => .error ()) (.int 7) = ["7"] := by rfl
example : query_llm_for_summary_and_tags (fun _ => .error ()) (fun _ => .error ())
    (fun _ => none) .transportError = emptyModelResult := by rfl
example : query_llm_for_summary_and_tags (fun _ => .error ()) (fun _ => .error ())
    (fun _ => none) (.response 500 (.ok YVal.null)) = emptyModelResult := by rfl
example :
    query_llm_for_summary_and_tags
      (fun s => if s = "raw" then .ok (.dict [("summary", .str "hi there"),
        ("tags", .list [.str "a", .str "b", .str "c", .str "d"])]) else .error ())
      (fun _ => .error ()) (fun _ => none)
      (.response 200 (.ok (.dict [("choices", .list [.dict [("message",
        .dict [("content", .str "raw")])]])])))
    = { summary := "hi there", tags := ["a", "b", "c"], date := none,
        date_confidence := 0 } := by rfl
example :
    parse_frontmatter_and_body (fun _ => .ok (.dict [("title", .str "T")]))
      "---\ntitle: T\n---\nbody" = ([("title", .str "T")], "\nbody", true) := by rfl
example :
    parse_frontmatter_and_body (fun _ => .error ()) "no frontmatter"
      = ([], "no frontmatter", false) := by rfl
example : render_content "k: v\n" "\n\n\nbody" = "---\nk: v\n---\n\nbody" := by rfl
example :
    merge_tags_value (fun _ => .error ()) (.list [.str "a"]) ["b", "a", "c", "d", "e"]
      = .ok (.list [.str "a", .str "b", .str "c", .str "d"]) := by rfl

/-! ## Lemmas about the Response Extractor -/

theorem braceBalanced_append {a b : List Char} (ha : BraceBalanced a)
    (hb : BraceBalanced b) : BraceBalanced (a ++ b) := by
  induction ha with
  | empty => simpa using hb
  | other c l h1 h2 _ ih => exact BraceBalanced.other c _ h1 h2 ih
  | wrap inner l hi _ _ ihl =>
    have h := BraceBalanced.wrap inner (l ++ b) hi ihl
    simpa [List.append_assoc] using h

theorem braceCloses_prepend {b : List Char} {d : Int} {u : List Char}
    (hb : BraceBalanced b) (hc : BraceCloses d u) : BraceCloses d (b ++ u) := by
  cases hc with
  | base b2 h2 =>
    have h := BraceCloses.base (b ++ b2) (braceBalanced_append hb h2)
    simpa [List.append_assoc] using h
  | step b2 d2 u2 hd h2 hc2 =>
    have h := BraceCloses.step (b ++ b2) d2 u2 hd (braceBalanced_append hb h2) hc2
    simpa [List.append_assoc] using h

theorem braceScan_over_balanced {b : List Char} (hb : BraceBalanced b) :
    ∀ (rest acc : List Char) (d : Int), 1 ≤ d →
      braceScan (b ++ rest) d acc = braceScan rest d (acc ++ b) := by
  induction hb with
  | empty => intro rest acc d _; simp
  | other c l h1 h2 _ ih =>
    intro rest acc d hd
    show braceScan (c :: (l ++ rest)) d acc = _
    rw [braceScan, if_neg h1, if_neg h2, ih rest (acc ++ [c]) d hd]
    simp
  | wrap inner l hi _ ihi ihl =>
    intro rest acc d hd
    show braceScan ('{' :: ((inner ++ '}' :: l) ++ rest)) d acc = _
    rw [braceScan, if_pos rfl]
    have h1 : (inner ++ '}' :: l) ++ rest = inner ++ ('}' :: (l ++ rest)) := by simp
    rw [h1, ihi ('}' :: (l ++ rest)) (acc ++ ['{']) (d + 1) (by omega)]
    rw [braceScan, if_neg (by decide), if_pos rfl, if_neg (by omega : ¬(d + 1 - 1 = 0))]
    have h2 : d + 1 - 1 = d := by omega
    rw [h2, ihl rest ((acc ++ ['{'] ++ inner) ++ ['}']) d hd]
    simp

theorem findOpen_skip {pre : List Char} (h : ∀ c ∈ pre, c ≠ '{') :
    ∀ l, findOpen (pre ++ l) = findOpen l := by
  induction pre with
  | nil => intro l; simp
  | cons c t ih =>
    intro l
    have hc : c ≠ '{' := h c (by simp)
    show findOpen (c :: (t ++ l)) = _
    rw [findOpen, if_neg hc]
    exact ih (fun x hx => h x (by simp [hx])) l

theorem findOpen_sound : ∀ l l' : List Char, findOpen l = some l' →
    ∃ pre t, l = pre ++ l' ∧ l' = '{' :: t := by
  intro l
  induction l with
  | nil => intro l' h; simp [findOpen] at h
  | cons c t ih =>
    intro l' h
    by_cases hc : c = '{'
    · subst hc
      rw [findOpen, if_pos rfl] at h
      have h2 := Option.some.inj h
      exact ⟨[], t, by simp [← h2], h2.symm⟩
    · rw [findOpen, if_neg hc] at h
      obtain ⟨pre, t2, h1, h2⟩ := ih l' h
      exact ⟨c :: pre, t2, by simp [h1], h2⟩

theorem braceCloses_cases {e : Int} {u : List Char} (h : BraceCloses e u) :
    (e = 1 ∧ ∃ b, BraceBalanced b ∧ u = b ++ ['}'])
    ∨ (2 ≤ e ∧ ∃ b u', BraceBalanced b ∧ BraceCloses (e - 1) u' ∧ u = b ++ '}' :: u') := by
  cases h with
  | base b hb => exact Or.inl ⟨rfl, b, hb, rfl⟩
  | step b d u2 hd hb hc =>
    right
    refine ⟨by omega, b, u2, hb, ?_, rfl⟩
    have hd1 : d + 1 - 1 = d := by omega
    simpa [hd1] using hc

theorem braceCloses_ge_two_inv {e : Int} {u : List Char} (h : BraceCloses e u)
    (he : 2 ≤ e) :
    ∃ b u', BraceBalanced b ∧ BraceCloses (e - 1) u' ∧ u = b ++ '}' :: u' := by
  rcases braceCloses_cases h with ⟨he1, _⟩ | ⟨_, b, u', hb, hc, hu⟩
  · omega
  · exact ⟨b, u', hb, hc, hu⟩

theorem braceCloses_one_inv {u : List Char} (h : BraceCloses 1 u) :
    ∃ b, BraceBalanced b ∧ u = b ++ ['}'] := by
  rcases braceCloses_cases h with ⟨_, b, hb, hu⟩ | ⟨he, _⟩
  · exact ⟨b, hb, hu⟩
  · omega

theorem braceScan_sound : ∀ (l : List Char) (d : Int) (acc r : List Char),
    1 ≤ d → braceScan l d acc = some r →
    ∃ u v, l = u ++ v ∧ r = acc ++ u ∧ BraceCloses d u := by
  intro l
  induction l with
  | nil => intro d acc r _ h; simp [braceScan] at h
  | cons c t ih =>
    intro d acc r hd h
    by_cases h1 : c = '{'
    · subst h1
      rw [braceScan, if_pos rfl] at h
      obtain ⟨u, v, hu, hr, hc⟩ := ih (d + 1) (acc ++ ['{']) r (by omega) h
      obtain ⟨b, u', hb, hc', hueq⟩ := braceCloses_ge_two_inv hc (by omega)
      refine ⟨'{' :: u, v, by simp [hu], by simp [hr], ?_⟩
      have hbal : BraceBalanced ('{' :: (b ++ ['}'])) := by
        have h2 := BraceBalanced.wrap b [] hb BraceBalanced.empty
        simpa using h2
      have hc2 : BraceCloses d u' := by
        have hd1 : d + 1 - 1 = d := by omega
        simpa [hd1] using hc'
      have h3 := braceCloses_prepend hbal hc2
      have h4 : ('{' :: (b ++ ['}'])) ++ u' = '{' :: u := by simp [hueq]
      rwa [h4] at h3
    · by_cases h2 : c = '}'
      · subst h2
        by_cases h3 : d - 1 = 0
        · rw [braceScan, if_neg h1, if_pos rfl, if_pos h3] at h
          have hd1 : d = 1 := by omega
          subst hd1
          refine ⟨['}'], t, rfl, (Option.some.inj h).symm, ?_⟩
          have hb := BraceCloses.base [] BraceBalanced.empty
          simpa using hb
        · rw [braceScan, if_neg h1, if_pos rfl, if_neg h3] at h
          obtain ⟨u, v, hu, hr, hc⟩ := ih (d - 1) (acc ++ ['}']) r (by omega) h
          refine ⟨'}' :: u, v, by simp [hu], by simp [hr], ?_⟩
          have hstep := BraceCloses.step [] (d - 1) u (by omega) BraceBalanced.empty hc
          have hd1 : d - 1 + 1 = d := by omega
          simpa [hd1] using hstep
      · rw [braceScan, if_neg h1, if_neg h2] at h
        obtain ⟨u, v, hu, hr, hc⟩ := ih d (acc ++ [c]) r hd h
        refine ⟨c :: u, v, by simp [hu], by simp [hr], ?_⟩
        exact braceCloses_prepend (BraceBalanced.other c [] h1 h2 BraceBalanced.empty) hc

theorem hasBraceRegion_mem {s : String} (h : HasBraceRegion s) : '{' ∈ s.data := by
  obtain ⟨pre, inner, post, h1, _⟩ := h
  rw [h1]; simp

/-- C2: for every text consisting of a well-formed top-level brace region
`'{' inner '}'` surrounded by brace-free text, `extract_json_object` returns
exactly that region; and on every text containing no balanced brace region
it returns `none`. -/
theorem C2_extract_json_object :
    (∀ pre inner post : List Char, (∀ c ∈ pre, c ≠ '{' ∧ c ≠ '}') →
      (∀ c ∈ post, c ≠ '{' ∧ c ≠ '}') → BraceBalanced inner →
      extract_json_object (String.mk (pre ++ '{' :: (inner ++ '}' :: post)))
        = some (String.mk ('{' :: (inner ++ ['}']))))
    ∧ (∀ s : String, ¬ HasBraceRegion s → extract_json_object s = none) := by
  constructor
  · intro pre inner post hpre _hpost hinner
    show (match findOpen (pre ++ '{' :: (inner ++ '}' :: post)) with
      | none => none
      | some l => (braceScan l 0 []).map String.mk)
      = some (String.mk ('{' :: (inner ++ ['}'])))
    rw [findOpen_skip (fun c hc => (hpre c hc).1)]
    rw [findOpen, if_pos rfl]
    show (braceScan ('{' :: (inner ++ '}' :: post)) 0 []).map String.mk = _
    rw [braceScan, if_pos rfl]
    rw [braceScan_over_balanced hinner ('}' :: post) ([] ++ ['{']) (0 + 1) (by omega)]
    rw [braceScan, if_neg (by decide), if_pos rfl, if_pos (by omega : (0 : Int) + 1 - 1 = 0)]
    simp
  · intro s hns
    cases heq : extract_json_object s with
    | none => rfl
    | some r =>
      exfalso
      apply hns
      unfold extract_json_object at heq
      cases hf : findOpen s.data with
      | none => rw [hf] at heq; simp at heq
      | some l =>
        simp only [hf] at heq
        obtain ⟨pre, t, hsd, hlt⟩ := findOpen_sound s.data l hf
        subst hlt
        cases hb : braceScan ('{' :: t) 0 [] with
        | none => rw [hb] at heq; simp at heq
        | some r0 =>
          rw [braceScan, if_pos rfl] at hb
          obtain ⟨u, v, ht, _, hc⟩ := braceScan_sound t (0 + 1) ([] ++ ['{']) r0 (by omega) hb
          obtain ⟨b, hbb, hu⟩ := braceCloses_one_inv (by simpa using hc)
          refine ⟨pre, b, v, ?_, hbb⟩
          rw [hsd, ht, hu]
          simp

/-- Non-vacuity witness for C2: a concrete text around a nested region, and
a concrete text with no balanced region. -/
theorem C2_extract_json_object_witness :
    extract_json_object (String.mk ['a', 'b', '{', 'c', 'd', '}', 'e', 'f'])
      = some (String.mk ['{', 'c', 'd', '}'])
    ∧ extract_json_object (String.mk ['}', 'x']) = none := by
  constructor
  · have h := C2_extract_json_object.1 ['a', 'b'] ['c', 'd'] ['e', 'f']
      (by decide) (by decide)
      (BraceBalanced.other 'c' _ (by decide) (by decide)
        (BraceBalanced.other 'd' _ (by decide) (by decide) BraceBalanced.empty))
    simpa using h
  · exact C2_extract_json_object.2 (String.mk ['}', 'x'])
      (fun h => absurd (hasBraceRegion_mem h) (by decide))

/-! ## Lemmas about filename date extraction -/

theorem matchNum12_complete {sep : Char} (hsep : sep.isDigit = false)
    {m rest : List Char} (h1 : 1 ≤ m.length) (h2 : m.length ≤ 2)
    (hd : ∀ c ∈ m, c.isDigit) :
    matchNum12 sep (m ++ sep :: rest) = some (m, rest) := by
  match m, h1, h2 with
  | [a], _, _ =>
    have ha : a.isDigit := hd a (by simp)
    simp [matchNum12, ha, hsep]
  | [a, b], _, _ =>
    have ha : a.isDigit := hd a (by simp)
    have hb : b.isDigit := hd b (by simp)
    simp [matchNum12, ha, hb]

theorem matchNum12_sound {sep : Char} {l m rest : List Char}
    (h : matchNum12 sep l = some (m, rest)) :
    l = m ++ sep :: rest ∧ 1 ≤ m.length ∧ m.length ≤ 2 ∧ ∀ c ∈ m, c.isDigit := by
  match l with
  | [] => exact absurd h (by simp [matchNum12])
  | [a] => exact absurd h (by simp [matchNum12])
  | a :: b :: t =>
    by_cases ha : a.isDigit
    · by_cases hb : b.isDigit
      · cases t with
        | nil => simp [matchNum12, ha, hb] at h
        | cons c t2 =>
          by_cases hc : c = sep
          · have h9 : matchNum12 sep (a :: b :: c :: t2) = some ([a, b], t2) := by
              simp [matchNum12, ha, hb, hc]
            rw [h9] at h
            simp only [Option.some.injEq, Prod.mk.injEq] at h
            obtain ⟨hm, hr⟩ := h
            subst hm; subst hr; subst hc
            refine ⟨by simp, by simp, by simp, ?_⟩
            intro x hx
            simp at hx
            rcases hx with rfl | rfl
            · exact ha
            · exact hb
          · simp [matchNum12, ha, hb, hc] at h
      · by_cases hbs : b = sep
        · subst hbs
          have h9 : matchNum12 b (a :: b :: t) = some ([a], t) := by
            simp [matchNum12, ha, hb]
          rw [h9] at h
          simp only [Option.some.injEq, Prod.mk.injEq] at h
          obtain ⟨hm, hr⟩ := h
          subst hm; subst hr
          refine ⟨by simp, by simp, by simp, ?_⟩
          intro x hx
          simp at hx
          subst hx
          exact ha
        · simp [matchNum12, ha, hb, hbs] at h
    · simp [matchNum12, ha] at h

theorem matchParenDate_complete {y m d post : List Char} (hy4 : y.length = 4)
    (hyd : ∀ c ∈ y, c.isDigit) (hm1 : 1 ≤ m.length) (hm2 : m.length ≤ 2)
    (hmd : ∀ c ∈ m, c.isDigit) (hd1 : 1 ≤ d.length) (hd2 : d.length ≤ 2)
    (hdd : ∀ c ∈ d, c.isDigit) :
    matchParenDate ('(' :: (y ++ '-' :: (m ++ '-' :: (d ++ ')' :: post))))
      = some (String.mk (y ++ '-' :: (zfill2 m ++ '-' :: zfill2 d))) := by
  match y, hy4 with
  | [a, b, c, e], _ =>
    have ha := hyd a (by simp)
    have hb := hyd b (by simp)
    have hc := hyd c (by simp)
    have he := hyd e (by simp)
    show matchParenDate ('(' :: a :: b :: c :: e :: '-' :: (m ++ '-' :: (d ++ ')' :: post))) = _
    simp only [matchParenDate, ha, hb, hc, he,
      matchNum12_complete (by decide : ('-' : Char).isDigit = false) hm1 hm2 hmd,
      matchNum12_complete (by decide : (')' : Char).isDigit = false) hd1 hd2 hdd]
    simp

theorem matchParenDate_sound {l : List Char} {r : String}
    (h : matchParenDate l = some r) :
    ∃ y m d rest, l = '(' :: (y ++ '-' :: (m ++ '-' :: (d ++ ')' :: rest)))
      ∧ y.length = 4 ∧ (∀ c ∈ y, c.isDigit)
      ∧ 1 ≤ m.length ∧ m.length ≤ 2 ∧ (∀ c ∈ m, c.isDigit)
      ∧ 1 ≤ d.length ∧ d.length ≤ 2 ∧ (∀ c ∈ d, c.isDigit)
      ∧ r = String.mk (y ++ '-' :: (zfill2 m ++ '-' :: zfill2 d)) := by
  unfold matchParenDate at h
  split at h
  · rename_i a b c e s1 rest0
    by_cases hcond : (a.isDigit && b.isDigit && c.isDigit && e.isDigit
        && decide (s1 = '-')) = true
    · rw [if_pos hcond] at h
      simp only [Bool.and_eq_true, decide_eq_true_eq] at hcond
      obtain ⟨⟨⟨⟨ha, hb⟩, hc⟩, he⟩, hs1⟩ := hcond
      subst hs1
      cases hm : matchNum12 '-' rest0 with
      | none => simp only [hm] at h; exact absurd h (by simp)
      | some pr =>
        obtain ⟨m, rest2⟩ := pr
        simp only [hm] at h
        cases hd : matchNum12 ')' rest2 with
        | none => simp only [hd] at h; exact absurd h (by simp)
        | some pr2 =>
          obtain ⟨dd, rest3⟩ := pr2
          simp only [hd] at h
          obtain ⟨hr0, hmb1, hmb2, hmdig⟩ := matchNum12_sound hm
          obtain ⟨hr2, hdb1, hdb2, hddig⟩ := matchNum12_sound hd
          refine ⟨[a, b, c, e], m, dd, rest3, ?_, by simp, ?_, hmb1, hmb2, hmdig,
            hdb1, hdb2, hddig, (Option.some.inj h).symm⟩
          · rw [hr0, hr2]; simp
          · intro x hx
            simp at hx
            rcases hx with rfl | rfl | rfl | rfl
            · exact ha
            · exact hb
            · exact hc
            · exact he
    · rw [if_neg hcond] at h
      exact absurd h (by simp)
  · exact absurd h (by simp)

theorem parenDateSearch_of_match : ∀ (pre t : List Char) (r : String),
    matchParenDate t = some r → (parenDateSearch (pre ++ t)).isSome := by
  intro pre
  induction pre with
  | nil =>
    intro t r h
    cases t with
    | nil => exact absurd h (by simp [matchParenDate])
    | cons c t2 =>
      show (parenDateSearch (c :: t2)).isSome
      rw [parenDateSearch, h]
      rfl
  | cons c pre2 ih =>
    intro t r h
    show (parenDateSearch (c :: (pre2 ++ t))).isSome
    rw [parenDateSearch]
    cases hm : matchParenDate (c :: (pre2 ++ t)) with
    | some r2 => rfl
    | none => exact ih t r h

theorem parenDateSearch_sound : ∀ (l : List Char) (r : String),
    parenDateSearch l = some r → ∃ pre t, l = pre ++ t ∧ matchParenDate t = some r := by
  intro l
  induction l with
  | nil => intro r h; simp [parenDateSearch] at h
  | cons c t ih =>
    intro r h
    rw [parenDateSearch] at h
    cases hm : matchParenDate (c :: t) with
    | some r2 =>
      rw [hm] at h
      exact ⟨[], c :: t, rfl, by rw [hm, Option.some.inj h]⟩
    | none =>
      rw [hm] at h
      obtain ⟨pre, t2, h1, h2⟩ := ih r h
      exact ⟨c :: pre, t2, by simp [h1], h2⟩

theorem extract_date_isSome_of_spec {fn : String} (h : FilenameDateSpec fn) :
    (extract_date_from_filename fn).isSome := by
  obtain ⟨pre, y, m, d, post, hdata, hy4, hyd, hm1, hm2, hmd, hd1, hd2, hdd⟩ := h
  unfold extract_date_from_filename
  rw [hdata]
  exact parenDateSearch_of_match pre _ _
    (matchParenDate_complete hy4 hyd hm1 hm2 hmd hd1 hd2 hdd)

theorem extract_date_sound {fn : String} {r : String}
    (h : extract_date_from_filename fn = some r) : PaddedDateOf fn r := by
  unfold extract_date_from_filename at h
  obtain ⟨pre, t, h1, h2⟩ := parenDateSearch_sound fn.data r h
  obtain ⟨y, m, d, rest, ht, hy4, hyd, hm1, hm2, hmd, hd1, hd2, hdd, hr⟩ :=
    matchParenDate_sound h2
  exact ⟨pre, y, m, d, rest, by rw [h1, ht], hy4, hyd, hm1, hm2, hmd, hd1, hd2, hdd, hr⟩

theorem paddedDateOf_spec {fn r : String} (h : PaddedDateOf fn r) :
    FilenameDateSpec fn := by
  obtain ⟨pre, y, m, d, post, hdata, hy4, hyd, hm1, hm2, hmd, hd1, hd2, hdd, _⟩ := h
  exact ⟨pre, y, m, d, post, hdata, hy4, hyd, hm1, hm2, hmd, hd1, hd2, hdd⟩

theorem filenameDateSpec_mem {fn : String} (h : FilenameDateSpec fn) :
    '(' ∈ fn.data := by
  obtain ⟨pre, y, m, d, post, hdata, _⟩ := h
  rw [hdata]; simp

theorem date_fallback_snd_ne_AI (fn fs : String) :
    (date_fallback fn fs).2 ≠ DateSource.AI := by
  unfold date_fallback
  split <;> simp

theorem date_fallback_spec {fn fs : String} (h : FilenameDateSpec fn) :
    ∃ r, date_fallback fn fs = (r, .Filename) ∧ PaddedDateOf fn r := by
  have h2 := extract_date_isSome_of_spec h
  cases heq : extract_date_from_filename fn with
  | none => rw [heq] at h2; simp at h2
  | some r =>
    refine ⟨r, ?_, extract_date_sound heq⟩
    unfold date_fallback
    rw [heq]

theorem date_fallback_nospec {fn fs : String} (h : ¬ FilenameDateSpec fn) :
    date_fallback fn fs = (fs, .FileSystem) := by
  cases heq : extract_date_from_filename fn with
  | none => unfold date_fallback; rw [heq]
  | some r => exact absurd (paddedDateOf_spec (extract_date_sound heq)) h

/-- C1 (amended): the resolver returns `(aiDate, AI)` exactly when `aiDate`
is non-null AND NON-EMPTY and the confidence strictly exceeds 0.9
(`pointNine`); otherwise, when the filename contains a parenthesized
`YYYY-M-D`/`YYYY-MM-DD` group it returns such a date with month and day
zero-padded and source `Filename`; otherwise `(fsCreationDate, FileSystem)`. -/
theorem C1_determine_file_date (a : Option String) (q : Rat) (fn fs : String) :
    ((determine_file_date a q fn fs).2 = DateSource.AI
      ↔ ∃ d, a = some d ∧ d ≠ "" ∧ q > pointNine)
    ∧ (∀ d, a = some d → d ≠ "" → q > pointNine →
        determine_file_date a q fn fs = (d, DateSource.AI))
    ∧ (¬ (∃ d, a = some d ∧ d ≠ "" ∧ q > pointNine) → FilenameDateSpec fn →
        ∃ r, determine_file_date a q fn fs = (r, DateSource.Filename) ∧ PaddedDateOf fn r)
    ∧ (¬ (∃ d, a = some d ∧ d ≠ "" ∧ q > pointNine) → ¬ FilenameDateSpec fn →
        determine_file_date a q fn fs = (fs, DateSource.FileSystem)) := by
  cases a with
  | none =>
    simp only [determine_file_date]
    refine ⟨⟨fun h => absurd h (date_fallback_snd_ne_AI fn fs), ?_⟩, ?_, ?_, ?_⟩
    · rintro ⟨d, hd, _⟩; cases hd
    · intro d hd; cases hd
    · intro _ hspec; exact date_fallback_spec hspec
    · intro _ hnspec; exact date_fallback_nospec hnspec
  | some d0 =>
    by_cases hq : d0 ≠ "" ∧ q ≠ 0 ∧ q > pointNine
    · obtain ⟨hd0, _, hqgt⟩ := hq
      rw [show determine_file_date (some d0) q fn fs = (d0, DateSource.AI) from by
        simp only [determine_file_date]; rw [if_pos ⟨hd0, ne_of_gt (lt_trans (by decide) hqgt), hqgt⟩]]
      refine ⟨⟨fun _ => ⟨d0, rfl, hd0, hqgt⟩, fun _ => rfl⟩, ?_, ?_, ?_⟩
      · intro d hd _ _
        rw [Option.some.inj hd]
      · intro hn _; exact absurd ⟨d0, rfl, hd0, hqgt⟩ hn
      · intro hn _; exact absurd ⟨d0, rfl, hd0, hqgt⟩ hn
    · have hff : determine_file_date (some d0) q fn fs = date_fallback fn fs := by
        simp only [determine_file_date]; rw [if_neg hq]
      have hnex : ¬ ∃ d, some d0 = some d ∧ d ≠ "" ∧ q > pointNine := by
        rintro ⟨d, hd, hne, hgt⟩
        have hdd : d = d0 := (Option.some.inj hd).symm
        subst hdd
        exact hq ⟨hne, ne_of_gt (lt_trans (by decide) hgt), hgt⟩
      rw [hff]
      refine ⟨⟨fun h => absurd h (date_fallback_snd_ne_AI fn fs), fun h => absurd h hnex⟩,
        ?_, ?_, ?_⟩
      · intro d h1 h2 h3; exact absurd ⟨d, h1, h2, h3⟩ hnex
      · intro _ hspec; exact date_fallback_spec hspec
      · intro _ hnspec; exact date_fallback_nospec hnspec

/-- C1 counterexample: with `aiDate` the non-null empty string and
confidence `0.95 > 0.9`, the claim requires `("", AI)`, but the resolver
falls through (Python truthiness of `""` is false) and returns the
file-system tier. -/
theorem C1_counterexample :
    (some "" ≠ (none : Option String))
    ∧ ((⟨19, 20, by decide, by decide⟩ : Rat) > pointNine)
    ∧ determine_file_date (some "") (⟨19, 20, by decide, by decide⟩ : Rat) "x.md" "1999-01-01"
        = ("1999-01-01", DateSource.FileSystem)
    ∧ determine_file_date (some "") (⟨19, 20, by decide, by decide⟩ : Rat) "x.md" "1999-01-01"
        ≠ ("", DateSource.AI) := by
  refine ⟨by simp, by decide, by rfl, by decide⟩

/-- Non-vacuity witness for C1: each tier realized on concrete inputs. -/
theorem C1_determine_file_date_witness :
    determine_file_date (some "2023-05-01") (1 : Rat) "a(2020-01-01).md" "1999-01-01"
      = ("2023-05-01", DateSource.AI)
    ∧ (∃ r, determine_file_date none 0 "Notes (2021-3-9).md" "1999-01-01"
        = (r, DateSource.Filename) ∧ PaddedDateOf "Notes (2021-3-9).md" r)
    ∧ determine_file_date none 0 "x.md" "1999-01-01"
        = ("1999-01-01", DateSource.FileSystem) := by
  refine ⟨?_, ?_, ?_⟩
  · exact (C1_determine_file_date (some "2023-05-01") 1 "a(2020-01-01).md"
      "1999-01-01").2.1 "2023-05-01" rfl (by decide) (by decide)
  · exact (C1_determine_file_date none 0 "Notes (2021-3-9).md" "1999-01-01").2.2.1
      (by simp)
      ⟨['N', 'o', 't', 'e', 's', ' '], ['2', '0', '2', '1'], ['3'], ['9'], ['.', 'm', 'd'],
        by decide, by decide, by decide, by decide, by decide, by decide, by decide,
        by decide, by decide⟩
  · exact (C1_determine_file_date none 0 "x.md" "1999-01-01").2.2.2 (by simp)
      (fun h => absurd (filenameDateSpec_mem h) (by decide))

/-! ## Summary truncation (C6) -/

/-- C6: whenever the (cleaned) summary has more than 50 whitespace-delimited
words, the Model Client truncates it to exactly the first 50 words joined by
single spaces plus the ellipsis marker `"..."`; a summary of 50 or fewer
words is returned untouched.  (`truncate_summary` is the truncation step of
`query_llm_for_summary_and_tags`.) -/
theorem C6_truncate_summary (s : String) :
    ((pySplitWs s).length > 50 →
      truncate_summary s = String.intercalate " " ((pySplitWs s).take 50) ++ "...")
    ∧ ((pySplitWs s).length ≤ 50 → truncate_summary s = s) := by
  constructor
  · intro h
    show (if (pySplitWs s).length > 50
      then String.intercalate " " ((pySplitWs s).take 50) ++ "..." else s) = _
    rw [if_pos h]
  · intro h
    show (if (pySplitWs s).length > 50
      then String.intercalate " " ((pySplitWs s).take 50) ++ "..." else s) = s
    rw [if_neg (by omega)]

/-- Non-vacuity witness for C6: a concrete 120-word summary is cut to the
first 50 words plus the marker, and re-splitting the result gives exactly
50 words; a 50-word summary is untouched. -/
theorem C6_truncate_summary_witness :
    (pySplitWs (String.intercalate " " (List.replicate 120 "w"))).length = 120
    ∧ truncate_summary (String.intercalate " " (List.replicate 120 "w"))
        = String.intercalate " " (List.replicate 50 "w") ++ "..."
    ∧ (pySplitWs (truncate_summary
        (String.intercalate " " (List.replicate 120 "w")))).length = 50
    ∧ truncate_summary (String.intercalate " " (List.replicate 50 "w"))
        = String.intercalate " " (List.replicate 50 "w") := by
  refine ⟨by decide, ?_, by decide, ?_⟩
  · have h := (C6_truncate_summary (String.intercalate " " (List.replicate 120 "w"))).1
      (by decide)
    rw [h]
    decide
  · exact (C6_truncate_summary (String.intercalate " " (List.replicate 50 "w"))).2
      (by decide)

/-! ## Tags-key fallback (C10) -/

/-- C10: the Model Client's raw-tags selection reads the `tags` key; only
when that key is absent does it fall back to the `tag` key; only when both
are absent does it default to the empty list.  (A present key wins even
with a null/falsy value.) -/
theorem C10_select_raw_tags (p : List (String × YVal)) :
    (∀ v, dictGet p "tags" = some v → select_raw_tags p = v)
    ∧ (dictGet p "tags" = none → ∀ v, dictGet p "tag" = some v → select_raw_tags p = v)
    ∧ (dictGet p "tags" = none → dictGet p "tag" = none →
        select_raw_tags p = YVal.list []) := by
  refine ⟨?_, ?_, ?_⟩
  · intro v h
    unfold select_raw_tags pyGetD
    rw [h]
    rfl
  · intro h v h2
    unfold select_raw_tags pyGetD
    rw [h, h2]
    rfl
  · intro h h2
    unfold select_raw_tags pyGetD
    rw [h, h2]
    rfl

/-- Non-vacuity witness for C10: all three selection cases on concrete
dictionaries (including a null `tags` value, which still wins over `tag`). -/
theorem C10_select_raw_tags_witness :
    select_raw_tags [("tags", .null), ("tag", .str "y")] = .null
    ∧ select_raw_tags [("tag", .str "y")] = .str "y"
    ∧ select_raw_tags [("other", .int 1)] = YVal.list [] := by
  exact ⟨(C10_select_raw_tags [("tags", .null), ("tag", .str "y")]).1 _ rfl,
    (C10_select_raw_tags [("tag", .str "y")]).2.1 rfl _ rfl,
    (C10_select_raw_tags [("other", .int 1)]).2.2 rfl rfl⟩

/-! ## Tag merge (C5) -/

theorem yval_beq_str_iff (t : String) (v : YVal) :
    (YVal.str t == v) = true ↔ YVal.str t = v := by
  cases v <;> simp [(· == ·), YVal.beq]

theorem yval_str_contains_iff (t : String) (l : List YVal) :
    l.contains (YVal.str t) = true ↔ YVal.str t ∈ l := by
  induction l with
  | nil => simp
  | cons v rest ih =>
    rw [List.contains_cons]
    constructor
    · intro h
      rcases Bool.or_eq_true_iff.mp h with h1 | h1
      · exact (yval_beq_str_iff t v).mp h1 ▸ List.mem_cons_self _ _
      · exact List.mem_cons_of_mem v (ih.mp h1)
    · intro h
      rcases List.mem_cons.mp h with h1 | h1
      · exact Bool.or_eq_true_iff.mpr (Or.inl ((yval_beq_str_iff t v).mpr h1))
      · exact Bool.or_eq_true_iff.mpr (Or.inr (ih.mpr h1))

/-- C5: when the header's `tags` value is a sequence, the merge step yields
that sequence with at most 3 new tags appended; every appended tag comes
from the AI tags and none of them was already present (presence judged by
exact equality with the existing values); the pre-existing entries are kept
in full, in order, uncapped. -/
theorem C5_merge_tags (yload : String → Except Unit YVal) (existing : List YVal)
    (aiTags : List String) :
    ∃ appended : List String,
      merge_tags_value yload (.list existing) aiTags
        = .ok (.list (existing ++ appended.map YVal.str))
      ∧ appended.length ≤ 3
      ∧ (∀ t ∈ appended, YVal.str t ∉ existing)
      ∧ (∀ t ∈ appended, t ∈ aiTags) := by
  refine ⟨(aiTags.filter (fun t => !(existing.contains (YVal.str t)))).take 3,
    ?_, ?_, ?_, ?_⟩
  · have hmv : merge_tags_value yload (.list existing) aiTags
        = if (aiTags.filter (fun t => !(existing.contains (YVal.str t)))).isEmpty
          then .ok (.list existing)
          else .ok (.list (existing
            ++ ((aiTags.filter (fun t => !(existing.contains (YVal.str t)))).take 3).map
              YVal.str)) := rfl
    rw [hmv]
    by_cases he : (aiTags.filter (fun t => !(existing.contains (YVal.str t)))).isEmpty
    · rw [if_pos he]
      rw [List.isEmpty_iff] at he
      rw [he]
      simp
    · rw [if_neg he]
  · exact le_trans (List.length_take_le 3 _) (le_refl 3)
  · intro t ht
    have ht2 := List.mem_of_mem_take ht
    have := (List.mem_filter.mp ht2).2
    simp only [Bool.not_eq_true'] at this
    intro hmem
    rw [← yval_str_contains_iff] at hmem
    rw [this] at hmem
    cases hmem
  · intro t ht
    exact (List.mem_filter.mp (List.mem_of_mem_take ht)).1

/-! ## Model Client totality (C7) -/

/-- C7: the Model Client returns a `ModelResult` for every input (it is a
total function of its inputs), and on a raised transport error, a raised
timeout, an HTTP error status (4xx/5xx — exactly the statuses
`raise_for_status` raises for), a body that is not JSON, a response of an
unexpected shape, and whenever no parse attempt yields a mapping, the
returned value is the all-empty/zero result
`{summary := "", tags := [], date := none, date_confidence := 0}` instead of
an exception escaping. -/
theorem C7_query_llm_total (yload jload : String → Except Unit YVal)
    (nameLk : String → Option Nat) :
    query_llm_for_summary_and_tags yload jload nameLk .transportError = emptyModelResult
    ∧ query_llm_for_summary_and_tags yload jload nameLk .timeoutError = emptyModelResult
    ∧ (∀ status body, 400 ≤ status → status < 600 →
        query_llm_for_summary_and_tags yload jload nameLk (.response status body)
          = emptyModelResult)
    ∧ (∀ status, query_llm_for_summary_and_tags yload jload nameLk
        (.response status (.error ())) = emptyModelResult)
    ∧ (∀ status resp, getContent resp = none →
        query_llm_for_summary_and_tags yload jload nameLk (.response status (.ok resp))
          = emptyModelResult)
    ∧ (∀ status resp raw, getContent resp = some raw →
        (∀ d, parse_llm_output yload jload raw ≠ .dict d) →
        query_llm_for_summary_and_tags yload jload nameLk (.response status (.ok resp))
          = emptyModelResult) := by
  refine ⟨rfl, rfl, ?_, ?_, ?_, ?_⟩
  · intro status body h1 h2
    simp only [query_llm_for_summary_and_tags]
    rw [if_pos ⟨h1, h2⟩]
  · intro status
    simp only [query_llm_for_summary_and_tags]
    by_cases hs : 400 ≤ status ∧ status < 600
    · rw [if_pos hs]
    · rw [if_neg hs]
  · intro status resp h
    simp only [query_llm_for_summary_and_tags]
    by_cases hs : 400 ≤ status ∧ status < 600
    · rw [if_pos hs]
    · rw [if_neg hs]
      simp only [h]
  · intro status resp raw h1 h2
    simp only [query_llm_for_summary_and_tags]
    by_cases hs : 400 ≤ status ∧ status < 600
    · rw [if_pos hs]
    · rw [if_neg hs]
      simp only [h1]

/-- Non-vacuity witness for C7: a 404 response and a 200 response whose
output parses to a non-mapping both yield the empty result. -/
theorem C7_query_llm_total_witness :
    query_llm_for_summary_and_tags (fun _ => .error ()) (fun _ => .error ())
      (fun _ => none) (.response 404 (.ok .null)) = emptyModelResult
    ∧ query_llm_for_summary_and_tags (fun _ => .ok (.list [])) (fun _ => .error ())
      (fun _ => none)
      (.response 200 (.ok (.dict [("choices", .list [.dict
        [("message", .dict [("content", .str "not a mapping")])]])])))
      = emptyModelResult := by
  constructor
  · exact (C7_query_llm_total _ _ _).2.2.1 404 _ (by decide) (by decide)
  · exact (C7_query_llm_total _ _ _).2.2.2.2.2 200 _ "not a mapping" rfl
      (fun d h => YVal.noConfusion h)

/-! ## Rendering (C8) -/

theorem head_dropWhile_newline : ∀ (l : List Char) (c : Char),
    (l.dropWhile (fun x => x = '\n')).head? = some c → c ≠ '\n' := by
  intro l
  induction l with
  | nil => intro c h; simp at h
  | cons a t ih =>
    intro c h
    by_cases ha : a = '\n'
    · rw [List.dropWhile_cons, if_pos (by simp [ha])] at h
      exact ih c h
    · rw [List.dropWhile_cons, if_neg (by simp [ha])] at h
      simp at h
      rw [← h]
      exact ha

/-- C8: the rendered content is the delimiter line, the serialized header
text, the delimiter line, one blank line, then the body with its leading
newlines stripped; the stripped body never begins with a newline, and the
rendering is invariant under stripping the body's leading newlines first —
so exactly one blank line separates the header block from the body. -/
theorem C8_render_content (yaml_text body : String) :
    (render_content yaml_text body).data
      = "---\n".data ++ yaml_text.data ++ "---\n\n".data
        ++ body.data.dropWhile (fun c => c = '\n')
    ∧ (∀ c, (body.data.dropWhile (fun c => c = '\n')).head? = some c → c ≠ '\n')
    ∧ render_content yaml_text body = render_content yaml_text (pyLstripNewlines body) := by
  refine ⟨?_, fun c h => head_dropWhile_newline body.data c h, ?_⟩
  · unfold render_content pyLstripNewlines
    simp [String.data_append]
  · unfold render_content pyLstripNewlines
    congr 1
    show String.mk (body.data.dropWhile (fun c => c = '\n'))
      = String.mk ((String.mk (body.data.dropWhile (fun c => c = '\n'))).data.dropWhile
        (fun c => c = '\n'))
    rw [show (String.mk (body.data.dropWhile (fun c => c = '\n'))).data
      = body.data.dropWhile (fun c => c = '\n') from rfl]
    rw [List.dropWhile_idempotent]

/-- Non-vacuity witness for C8 on a concrete header and a body with three
leading newlines. -/
theorem C8_render_content_witness :
    (render_content "k: v\n" "\n\n\nbody").data
      = "---\n".data ++ "k: v\n".data ++ "---\n\n".data ++ "body".data
    ∧ render_content "k: v\n" "\n\n\nbody" = render_content "k: v\n" "body" := by
  constructor
  · have h := (C8_render_content "k: v\n" "\n\n\nbody").1
    rw [h]
    decide
  · exact (C8_render_content "k: v\n" "\n\n\nbody").2.2

/-! ## Unicode repair (C9) -/

/-- C9 (amended): `clean_text_unicode_escapes` returns `s` unchanged when
`s` contains no literal backslash-u / backslash-U; when it does contain one,
the whole string is re-decoded as a Python `unicode_escape` payload over its
UTF-8 bytes — decoding every recognized escape sequence, not only the
`\u`/`\U` ones, and reading non-ASCII bytes as Latin-1 — and `s` is returned
unchanged when that decode raises.  The repair is applied by the Model
Client to the stripped summary (before truncation) and to each parsed tag. -/
theorem C9_clean_text (nameLk : String → Option Nat) (s : String) :
    ((listHasSub ['\\', 'u'] s.data || listHasSub ['\\', 'U'] s.data) = false →
      clean_text_unicode_escapes nameLk s = s)
    ∧ (∀ e, (listHasSub ['\\', 'u'] s.data || listHasSub ['\\', 'U'] s.data) = true →
        pyUnicodeEscape nameLk (strUtf8 s) = .error e →
        clean_text_unicode_escapes nameLk s = s)
    ∧ (∀ cs, (listHasSub ['\\', 'u'] s.data || listHasSub ['\\', 'U'] s.data) = true →
        pyUnicodeEscape nameLk (strUtf8 s) = .ok cs →
        clean_text_unicode_escapes nameLk s = String.mk cs)
    ∧ (∀ yload jload status resp raw parsed,
        getContent resp = some raw → ¬ (400 ≤ status ∧ status < 600) →
        parse_llm_output yload jload raw = YVal.dict parsed →
        (query_llm_for_summary_and_tags yload jload nameLk
            (.response status (.ok resp))).tags
          = ((parse_tags_field yload (select_raw_tags parsed)).map
              (clean_text_unicode_escapes nameLk)).take 3
        ∧ (query_llm_for_summary_and_tags yload jload nameLk
            (.response status (.ok resp))).summary
          = truncate_summary (clean_text_unicode_escapes nameLk
              (pyStrip (pyStr (pyOr (pyGetD parsed "summary" (YVal.str ""))
                (YVal.str "")))))) := by
  refine ⟨?_, ?_, ?_, ?_⟩
  · intro h
    unfold clean_text_unicode_escapes
    rw [if_neg (by simp [h])]
  · intro e h h2
    unfold clean_text_unicode_escapes
    rw [if_pos (by simp_all), h2]
  · intro cs h h2
    unfold clean_text_unicode_escapes
    rw [if_pos (by simp_all), h2]
  · intro yload jload status resp raw parsed h1 hs hp
    simp only [query_llm_for_summary_and_tags]
    rw [if_neg hs]
    simp only [h1, hp]
    exact ⟨trivial, trivial⟩

/-- C9 counterexample: for the string with characters
`\ u 0 0 4 1 SPACE \ n` (a literal backslash-u escape followed by a literal
backslash-n), decoding only the backslash-u escape would give
`A SPACE \ n` with the backslash-n kept; the code instead decodes the
backslash-n too, yielding a real newline character. -/
theorem C9_counterexample :
    clean_text_unicode_escapes (fun _ => none)
      (String.mk ['\\', 'u', '0', '0', '4', '1', ' ', '\\', 'n'])
      = String.mk ['A', ' ', '\n']
    ∧ String.mk ['A', ' ', '\n'] ≠ String.mk ['A', ' ', '\\', 'n'] := by
  exact ⟨by rfl, by decide⟩

/-- Non-vacuity witness for C9: unchanged when no escape / decode failure,
decoded when possible, and the repair visibly applied to a tag flowing
through the Model Client. -/
theorem C9_clean_text_witness :
    clean_text_unicode_escapes (fun _ => none) "no escapes here" = "no escapes here"
    ∧ clean_text_unicode_escapes (fun _ => none) "\\uZZZZ" = "\\uZZZZ"
    ∧ clean_text_unicode_escapes (fun _ => none) "\\u2011" = String.mk [Char.ofNat 8209]
    ∧ (query_llm_for_summary_and_tags ylC9 (fun _ => .error ()) (fun _ => none)
        (.response 200 (.ok respC9))).tags = ["A"] := by
  refine ⟨?_, ?_, ?_, ?_⟩
  · exact (C9_clean_text (fun _ => none) "no escapes here").1 (by decide)
  · exact (C9_clean_text (fun _ => none) "\\uZZZZ").2.1 () (by decide) (by rfl)
  · exact (C9_clean_text (fun _ => none) "\\u2011").2.2.1 [Char.ofNat 8209]
      (by decide) (by rfl)
  · have h := ((C9_clean_text (fun _ => none) "").2.2.2 ylC9 (fun _ => .error ())
      200 respC9 "raw"
      [("summary", .str "ok"), ("tags", .list [.str "\\u0041"])]
      (by rfl) (by omega) (by rfl)).1
    rw [h]
    rfl

/-! ## Error reporting and persistence (C4) -/

/-- C4 (amended): every per-document error is printed immediately — a read
failure prints `ERR reading ...` and the job returns `None`, skipping the
rest; a write failure prints `ERR writing ...` and yields an error record in
the results — but neither is persisted: the error log records exactly the
exceptions escaping a job, each entry made of relative path, message, type
tag and timestamp, and each such exception is also printed as
`ERR processing ...`. -/
theorem C4_error_reporting :
    (∀ yload jload nameLk ydump char_limit force_flag write_mode job e,
      job.readResult = .error e →
      process_file yload jload nameLk ydump char_limit force_flag write_mode job
        = (["ERR reading " ++ job.filepath ++ ": " ++ e], .ok none))
    ∧ (∀ yload jload nameLk ydump char_limit force_flag job pr p e,
        process_file yload jload nameLk ydump char_limit force_flag true job
          = (pr, .ok (some (.updatedFail p e))) →
        p = job.relpath ∧ ("ERR writing " ++ job.filepath ++ ": " ++ e) ∈ pr)
    ∧ (∀ relp ts jobs, (main_collect relp ts jobs).2.1
        = jobs.filterMap (fun j => match j.2 with
            | .exn _ m t => some ⟨relp j.1, m, t, ts⟩
            | _ => none))
    ∧ (∀ relp ts jobs fp pr m t, (fp, JobOutcome.exn pr m t) ∈ jobs →
        ("ERR processing " ++ fp ++ ": " ++ m) ∈ (main_collect relp ts jobs).2.2) := by
  refine ⟨?_, ?_, ?_, ?_⟩
  · intro yload jload nameLk ydump char_limit force_flag write_mode job e h
    simp only [process_file, h]
  · intro yload jload nameLk ydump char_limit force_flag job pr p e h
    cases hr : job.readResult with
    | error e0 =>
      simp only [process_file, hr] at h
      simp at h
    | ok content =>
      simp only [process_file, hr] at h
      split at h
      · simp at h
      · split at h
        · simp at h
        · rw [if_pos trivial] at h
          split at h
          · simp at h
          · simp only [Prod.mk.injEq, Except.ok.injEq, Option.some.injEq,
              RetVal.updatedFail.injEq] at h
            obtain ⟨hpr, hp2, he2⟩ := h
            exact ⟨hp2.symm, by rw [← hpr, ← he2]; exact List.mem_singleton.mpr rfl⟩
  · intro relp ts jobs
    induction jobs with
    | nil => rfl
    | cons j rest ih =>
      obtain ⟨fp, oc⟩ := j
      cases oc with
      | ok pr ret => simp [main_collect, ih]
      | exn pr m t => simp [main_collect, ih]
  · intro relp ts jobs fp pr m t hmem
    induction jobs with
    | nil => simp at hmem
    | cons j rest ih =>
      rcases List.mem_cons.mp hmem with heq | hmem2
      · rw [← heq]
        simp only [main_collect]
        exact List.mem_append_right _ (List.mem_cons_self _ _)
      · obtain ⟨fp2, oc2⟩ := j
        cases oc2 with
        | ok pr2 ret2 =>
          simp only [main_collect]
          exact List.mem_append_right _ (ih hmem2)
        | exn pr2 m2 t2 =>
          simp only [main_collect]
          exact List.mem_append_right _ (List.mem_cons_of_mem _ (ih hmem2))

/-- C4 counterexample: a run over one document whose read fails.  The error
is printed (an error did occur during the run), yet the error log of the
run is empty — read failures are caught inside the job and never persisted,
contradicting the claim that every per-document error reaches the error
log. -/
theorem C4_counterexample :
    (main_collect (fun q => q) "2026-01-01T00:00:00"
      [("a.md", jobOutcomeOf (process_file (fun _ => .error ()) (fun _ => .error ())
        (fun _ => none) (fun _ => "") 1000 false true c4Job))]).2.2
      = ["ERR reading a.md: boom"]
    ∧ (main_collect (fun q => q) "2026-01-01T00:00:00"
      [("a.md", jobOutcomeOf (process_file (fun _ => .error ()) (fun _ => .error ())
        (fun _ => none) (fun _ => "") 1000 false true c4Job))]).2.1 = [] := by
  exact ⟨rfl, rfl⟩

/-- Non-vacuity witness for C4: the read-failure print and skip, the
write-failure print, and the error log collecting exactly the raised
exceptions with type tag and timestamp. -/
theorem C4_error_reporting_witness :
    process_file (fun _ => .error ()) (fun _ => .error ()) (fun _ => none) (fun _ => "")
      1000 false true c4Job = (["ERR reading a.md: boom"], .ok none)
    ∧ ("ERR writing w.md: disk full")
        ∈ (process_file (fun _ => .error ()) (fun _ => .error ()) (fun _ => none)
          (fun _ => "") 1000 false true c4JobW).1
    ∧ (main_collect (fun q => q) "t0" [("b.md", .exn [] "kaput" "TypeError")]).2.1
        = [{ filepath := "b.md", error := "kaput", error_type := "TypeError",
             timestamp := "t0" }]
    ∧ ("ERR processing b.md: kaput")
        ∈ (main_collect (fun q => q) "t0" [("b.md", .exn [] "kaput" "TypeError")]).2.2 := by
  refine ⟨?_, ?_, ?_, ?_⟩
  · exact C4_error_reporting.1 _ _ _ _ 1000 false true c4Job "boom" rfl
  · exact (C4_error_reporting.2.1 (fun _ => .error ()) (fun _ => .error ())
      (fun _ => none) (fun _ => "") 1000 false c4JobW
      ["ERR writing w.md: disk full"] "w.md" "disk full" rfl).2
  · have h := C4_error_reporting.2.2.1 (fun q => q) "t0"
      [("b.md", .exn [] "kaput" "TypeError")]
    rw [h]
    rfl
  · exact C4_error_reporting.2.2.2 (fun q => q) "t0"
      [("b.md", .exn [] "kaput" "TypeError")] "b.md" [] "kaput" "TypeError" (by simp)
